import Mathlib

/-!
Verification of the approximate Riemann-solver core for the 1-D Euler
equations described by the repository's specification.  The notebook in the
repository is orchestration glue; the numerical core (`euler_hll_1D`,
`euler_roe_1D`) lives in an external package, so it is modelled here from
the specification's algorithm descriptions.  Real arithmetic stands in for
the floating-point arithmetic of the implementation.
-/

namespace EulerApprox

/-- Primitive gas state: density, velocity, pressure. -/
structure PrimitiveState where
  rho : ℝ
  u : ℝ
  p : ℝ

/-- Conserved gas state: density, momentum, total energy. -/
@[ext] structure ConservedState where
  rho : ℝ
  mom : ℝ
  ene : ℝ

instance : Add ConservedState := ⟨fun a b => ⟨a.rho + b.rho, a.mom + b.mom, a.ene + b.ene⟩⟩

instance : Sub ConservedState := ⟨fun a b => ⟨a.rho - b.rho, a.mom - b.mom, a.ene - b.ene⟩⟩

instance : SMul ℝ ConservedState := ⟨fun c q => ⟨c * q.rho, c * q.mom, c * q.ene⟩⟩

@[simp] lemma add_rho (a b : ConservedState) : (a + b).rho = a.rho + b.rho := rfl

@[simp] lemma add_mom (a b : ConservedState) : (a + b).mom = a.mom + b.mom := rfl

@[simp] lemma add_ene (a b : ConservedState) : (a + b).ene = a.ene + b.ene := rfl

@[simp] lemma sub_rho (a b : ConservedState) : (a - b).rho = a.rho - b.rho := rfl

@[simp] lemma sub_mom (a b : ConservedState) : (a - b).mom = a.mom - b.mom := rfl

@[simp] lemma sub_ene (a b : ConservedState) : (a - b).ene = a.ene - b.ene := rfl

@[simp] lemma smul_rho (c : ℝ) (q : ConservedState) : (c • q).rho = c * q.rho := rfl

@[simp] lemma smul_mom (c : ℝ) (q : ConservedState) : (c • q).mom = c * q.mom := rfl

@[simp] lemma smul_ene (c : ℝ) (q : ConservedState) : (c • q).ene = c * q.ene := rfl

/-- Errors of the solver core, as listed by the specification. -/
inductive SolverError where
  | invalidState
  | degenerateWaveSpeed
  | configuration
deriving DecidableEq

/-- A Riemann solution: ordered intermediate conserved states, ordered wave
speeds, and an evaluator mapping `(x, t)` to the state at `x / t`. -/
structure RiemannSolution where
  states : List ConservedState
  speeds : List ℝ
  evaluate : ℝ → ℝ → ConservedState

/-- Modelled from the spec: unchecked primitive-to-conserved conversion of
the GasModel (the implementation is in the external solver package, absent
from the repository source): `E = p/(γ-1) + ρ u²/2`. -/
noncomputable def prim2con (w : PrimitiveState) (γ : ℝ) : ConservedState :=
  ⟨w.rho, w.rho * w.u, w.p / (γ - 1) + w.rho * w.u ^ 2 / 2⟩

/-- Modelled from the spec: `toConserved` of the GasModel, which fails with
`InvalidStateError` when `ρ ≤ 0` or `p ≤ 0`. -/
noncomputable def toConserved (w : PrimitiveState) (γ : ℝ) :
    Except SolverError ConservedState :=
  if w.rho ≤ 0 ∨ w.p ≤ 0 then .error .invalidState else .ok (prim2con w γ)

/-- Modelled from the spec: the physical flux `f(q) = (ρu, ρu² + p, u (E + p))`
of the GasModel, written over conserved variables. -/
noncomputable def flux (q : ConservedState) (γ : ℝ) : ConservedState :=
  ⟨q.mom,
   q.mom * (q.mom / q.rho) + (γ - 1) * (q.ene - q.mom ^ 2 / (2 * q.rho)),
   (q.mom / q.rho) * (q.ene + (γ - 1) * (q.ene - q.mom ^ 2 / (2 * q.rho)))⟩

/-- Modelled from the spec: sound speed `c = sqrt (γ p / ρ)` of the GasModel. -/
noncomputable def soundSpeed (w : PrimitiveState) (γ : ℝ) : ℝ :=
  Real.sqrt (γ * w.p / w.rho)

/-- Modelled from the spec: specific total enthalpy `H = (E + p) / ρ`. -/
noncomputable def enthalpy (w : PrimitiveState) (γ : ℝ) : ℝ :=
  ((prim2con w γ).ene + w.p) / w.rho

/-- Modelled from the spec: Roe-averaged velocity (density-weighted, with
`sqrt ρ` weights). -/
noncomputable def roeU (wl wr : PrimitiveState) : ℝ :=
  (Real.sqrt wl.rho * wl.u + Real.sqrt wr.rho * wr.u) /
    (Real.sqrt wl.rho + Real.sqrt wr.rho)

/-- Modelled from the spec: Roe-averaged specific total enthalpy. -/
noncomputable def roeH (wl wr : PrimitiveState) (γ : ℝ) : ℝ :=
  (Real.sqrt wl.rho * enthalpy wl γ + Real.sqrt wr.rho * enthalpy wr γ) /
    (Real.sqrt wl.rho + Real.sqrt wr.rho)

/-- Modelled from the spec: Roe-averaged sound speed
`ĉ = sqrt ((γ-1) (Ĥ - û²/2))`. -/
noncomputable def roeC (wl wr : PrimitiveState) (γ : ℝ) : ℝ :=
  Real.sqrt ((γ - 1) * (roeH wl wr γ - (roeU wl wr) ^ 2 / 2))

/-- Modelled from the spec: HLLE left signal speed
`s_left = min (û - ĉ) (u_left - c_left)`. -/
noncomputable def sLeft (wl wr : PrimitiveState) (γ : ℝ) : ℝ :=
  min (roeU wl wr - roeC wl wr γ) (wl.u - soundSpeed wl γ)

/-- Modelled from the spec: HLLE right signal speed
`s_right = max (û + ĉ) (u_right + c_right)`. -/
noncomputable def sRight (wl wr : PrimitiveState) (γ : ℝ) : ℝ :=
  max (roeU wl wr + roeC wl wr γ) (wr.u + soundSpeed wr γ)

/-- Modelled from the spec: HLLE intermediate state from the HLL conservation
identity `q* = (s_r q_r - s_l q_l + f_l - f_r) / (s_r - s_l)`. -/
noncomputable def qStar (wl wr : PrimitiveState) (γ : ℝ) : ConservedState :=
  (1 / (sRight wl wr γ - sLeft wl wr γ)) •
    (sRight wl wr γ • prim2con wr γ - sLeft wl wr γ • prim2con wl γ +
      flux (prim2con wl γ) γ - flux (prim2con wr γ) γ)

/-- Modelled from the spec: self-similar evaluator walking the ordered list of
(wave speed, downstream state) pairs; returns the upstream state left of the
first wave slower than `ξ`. -/
noncomputable def evalWaves (q0 : ConservedState) :
    List (ℝ × ConservedState) → ℝ → ConservedState
  | [], _ => q0
  | (s, q) :: rest, ξ => if ξ < s then q0 else evalWaves q rest ξ

/-- Modelled from the spec: the trivial solution used when no wave crosses
`x = 0` (entirely one state). -/
noncomputable def constSolution (q : ConservedState) (wl wr : PrimitiveState)
    (γ : ℝ) : RiemannSolution :=
  ⟨[q], [sLeft wl wr γ, sRight wl wr γ], fun _ _ => q⟩

/-- Modelled from the spec: the generic HLLE solution with the single
intermediate state `q*` between the two signal speeds. -/
noncomputable def hllMain (wl wr : PrimitiveState) (γ : ℝ) : RiemannSolution :=
  ⟨[qStar wl wr γ], [sLeft wl wr γ, sRight wl wr γ],
   fun x t =>
     evalWaves (prim2con wl γ)
       [(sLeft wl wr γ, qStar wl wr γ), (sRight wl wr γ, prim2con wr γ)] (x / t)⟩

/-- Modelled from the spec: the HLLE two-wave approximate solver
`euler_hll_1D` (implemented in the external solver package, absent from the
repository source).  It validates both states, guards the degenerate
coinciding-speed case, returns a one-sided constant solution when no wave
crosses `x = 0`, and otherwise the single HLL intermediate state. -/
noncomputable def euler_hll_1D (wl wr : PrimitiveState) (γ : ℝ) :
    Except SolverError RiemannSolution :=
  if wl.rho ≤ 0 ∨ wl.p ≤ 0 then .error .invalidState
  else if wr.rho ≤ 0 ∨ wr.p ≤ 0 then .error .invalidState
  else if sLeft wl wr γ = sRight wl wr γ then .error .degenerateWaveSpeed
  else if 0 ≤ sLeft wl wr γ then .ok (constSolution (prim2con wl γ) wl wr γ)
  else if sRight wl wr γ ≤ 0 then .ok (constSolution (prim2con wr γ) wl wr γ)
  else .ok (hllMain wl wr γ)

/-- Modelled from the spec: velocity recovered from a conserved state. -/
noncomputable def uOf (q : ConservedState) : ℝ := q.mom / q.rho

/-- Modelled from the spec: pressure recovered from a conserved state. -/
noncomputable def pOf (q : ConservedState) (γ : ℝ) : ℝ :=
  (γ - 1) * (q.ene - q.mom ^ 2 / (2 * q.rho))

/-- Modelled from the spec: sound speed of a conserved state. -/
noncomputable def cOf (q : ConservedState) (γ : ℝ) : ℝ :=
  Real.sqrt (γ * pOf q γ / q.rho)

/-- Modelled from the spec: jump `q_r - q_l` in conserved variables. -/
noncomputable def roeDelta (wl wr : PrimitiveState) (γ : ℝ) : ConservedState :=
  prim2con wr γ - prim2con wl γ

/-- Modelled from the spec: right eigenvector of the Roe matrix, family 1. -/
noncomputable def roeR1 (wl wr : PrimitiveState) (γ : ℝ) : ConservedState :=
  ⟨1, roeU wl wr - roeC wl wr γ, roeH wl wr γ - roeU wl wr * roeC wl wr γ⟩

/-- Modelled from the spec: right eigenvector of the Roe matrix, family 2. -/
noncomputable def roeR2 (wl wr : PrimitiveState) (γ : ℝ) : ConservedState :=
  ⟨1, roeU wl wr, (roeU wl wr) ^ 2 / 2⟩

/-- Modelled from the spec: right eigenvector of the Roe matrix, family 3. -/
noncomputable def roeR3 (wl wr : PrimitiveState) (γ : ℝ) : ConservedState :=
  ⟨1, roeU wl wr + roeC wl wr γ, roeH wl wr γ + roeU wl wr * roeC wl wr γ⟩

/-- Modelled from the spec: wave strength of family 2, the closed form of the
projection of the jump onto the second left eigenvector of the Roe matrix
(the reconstruction theorem below certifies the projection property). -/
noncomputable def roeAlpha2 (wl wr : PrimitiveState) (γ : ℝ) : ℝ :=
  (γ - 1) / (roeC wl wr γ) ^ 2 *
    ((roeH wl wr γ - (roeU wl wr) ^ 2) * (roeDelta wl wr γ).rho +
      roeU wl wr * (roeDelta wl wr γ).mom - (roeDelta wl wr γ).ene)

/-- Modelled from the spec: wave strength of family 3 (closed-form left
eigenvector projection). -/
noncomputable def roeAlpha3 (wl wr : PrimitiveState) (γ : ℝ) : ℝ :=
  ((roeDelta wl wr γ).mom + (roeC wl wr γ - roeU wl wr) * (roeDelta wl wr γ).rho -
    roeC wl wr γ * roeAlpha2 wl wr γ) / (2 * roeC wl wr γ)

/-- Modelled from the spec: wave strength of family 1 (closed-form left
eigenvector projection). -/
noncomputable def roeAlpha1 (wl wr : PrimitiveState) (γ : ℝ) : ℝ :=
  (roeDelta wl wr γ).rho - roeAlpha2 wl wr γ - roeAlpha3 wl wr γ

/-- Modelled from the spec: first Roe intermediate state `q_l + α₁ r₁`. -/
noncomputable def roeM1 (wl wr : PrimitiveState) (γ : ℝ) : ConservedState :=
  prim2con wl γ + roeAlpha1 wl wr γ • roeR1 wl wr γ

/-- Modelled from the spec: second Roe intermediate state `q_l + α₁ r₁ + α₂ r₂`. -/
noncomputable def roeM2 (wl wr : PrimitiveState) (γ : ℝ) : ConservedState :=
  roeM1 wl wr γ + roeAlpha2 wl wr γ • roeR2 wl wr γ

/-- Modelled from the spec: family-1 eigenvalue on the left side of wave 1
(the left input state). -/
noncomputable def roeLam1L (wl : PrimitiveState) (γ : ℝ) : ℝ :=
  wl.u - soundSpeed wl γ

/-- Modelled from the spec: family-1 eigenvalue on the right side of wave 1
(the first intermediate state). -/
noncomputable def roeLam1R (wl wr : PrimitiveState) (γ : ℝ) : ℝ :=
  uOf (roeM1 wl wr γ) - cOf (roeM1 wl wr γ) γ

/-- Modelled from the spec: family-3 eigenvalue on the left side of wave 3
(the second intermediate state). -/
noncomputable def roeLam3L (wl wr : PrimitiveState) (γ : ℝ) : ℝ :=
  uOf (roeM2 wl wr γ) + cOf (roeM2 wl wr γ) γ

/-- Modelled from the spec: family-3 eigenvalue on the right side of wave 3
(the right input state). -/
noncomputable def roeLam3R (wr : PrimitiveState) (γ : ℝ) : ℝ :=
  wr.u + soundSpeed wr γ

/-- Modelled from the spec: Harten-type linear interpolation weight used by
the entropy fix to split a transonic family-1 wave. -/
noncomputable def roeBeta1 (wl wr : PrimitiveState) (γ : ℝ) : ℝ :=
  (roeLam1R wl wr γ - (roeU wl wr - roeC wl wr γ)) /
    (roeLam1R wl wr γ - roeLam1L wl γ)

/-- Modelled from the spec: Harten-type linear interpolation weight used by
the entropy fix to split a transonic family-3 wave. -/
noncomputable def roeBeta3 (wl wr : PrimitiveState) (γ : ℝ) : ℝ :=
  (roeLam3R wr γ - (roeU wl wr + roeC wl wr γ)) /
    (roeLam3R wr γ - roeLam3L wl wr γ)

/-- Modelled from the spec: the family-1 wave list of the Roe solver: with the
entropy fix enabled and wave 1 transonic, two sub-waves at the one-sided
eigenvalues (which straddle zero) with a linearly interpolated sub-state;
otherwise the single linearized wave at `û - ĉ`. -/
noncomputable def roeWaves1 (wl wr : PrimitiveState) (γ : ℝ) (efix : Bool) :
    List (ℝ × ConservedState) :=
  if efix = true ∧ roeLam1L wl γ < 0 ∧ 0 < roeLam1R wl wr γ then
    [(roeLam1L wl γ,
      prim2con wl γ + (roeBeta1 wl wr γ * roeAlpha1 wl wr γ) • roeR1 wl wr γ),
     (roeLam1R wl wr γ, roeM1 wl wr γ)]
  else [(roeU wl wr - roeC wl wr γ, roeM1 wl wr γ)]

/-- Modelled from the spec: the family-3 wave list of the Roe solver,
symmetric to the family-1 one. -/
noncomputable def roeWaves3 (wl wr : PrimitiveState) (γ : ℝ) (efix : Bool) :
    List (ℝ × ConservedState) :=
  if efix = true ∧ roeLam3L wl wr γ < 0 ∧ 0 < roeLam3R wr γ then
    [(roeLam3L wl wr γ,
      roeM2 wl wr γ + (roeBeta3 wl wr γ * roeAlpha3 wl wr γ) • roeR3 wl wr γ),
     (roeLam3R wr γ, prim2con wr γ)]
  else [(roeU wl wr + roeC wl wr γ, prim2con wr γ)]

/-- Modelled from the spec: the full ordered wave list of the Roe solver. -/
noncomputable def roeWaves (wl wr : PrimitiveState) (γ : ℝ) (efix : Bool) :
    List (ℝ × ConservedState) :=
  roeWaves1 wl wr γ efix ++ [(roeU wl wr, roeM2 wl wr γ)] ++ roeWaves3 wl wr γ efix

/-- Modelled from the spec: the Roe Riemann solution assembled from the wave
list (intermediate states are the downstream states of all but the last wave). -/
noncomputable def roeSol (wl wr : PrimitiveState) (γ : ℝ) (efix : Bool) :
    RiemannSolution :=
  ⟨((roeWaves wl wr γ efix).map Prod.snd).dropLast,
   (roeWaves wl wr γ efix).map Prod.fst,
   fun x t => evalWaves (prim2con wl γ) (roeWaves wl wr γ efix) (x / t)⟩

/-- Modelled from the spec: the Roe linearized approximate solver
`euler_roe_1D` (implemented in the external solver package, absent from the
repository source), with state validation and optional entropy fix. -/
noncomputable def euler_roe_1D (wl wr : PrimitiveState) (γ : ℝ) (efix : Bool) :
    Except SolverError RiemannSolution :=
  if wl.rho ≤ 0 ∨ wl.p ≤ 0 then .error .invalidState
  else if wr.rho ≤ 0 ∨ wr.p ≤ 0 then .error .invalidState
  else .ok (roeSol wl wr γ efix)

/-- The Sod-like left state set up in the notebook. -/
noncomputable def left_state : PrimitiveState := ⟨3, -0.5, 2⟩

/-- The Sod-like right state set up in the notebook. -/
noncomputable def right_state : PrimitiveState := ⟨1, 0, 1⟩

/-- The ratio of specific heats set in the notebook. -/
noncomputable def gamma : ℝ := 1.4

/-- Values held by the notebook's `problem_data` mapping. -/
inductive ConfigValue where
  | real : ℝ → ConfigValue
  | bool : Bool → ConfigValue

/-- A configuration mapping with string keys, insertion-ordered like a
Python dict. -/
def ConfigDict := List (String × ConfigValue)

/-- In-place key update with Python-dict semantics: replace the value when
the key exists, append the pair otherwise. -/
def dictSet (d : ConfigDict) (k : String) (v : ConfigValue) : ConfigDict :=
  match d with
  | [] => [(k, v)]
  | (k', v') :: rest =>
      if k' = k then (k, v) :: rest else (k', v') :: dictSet rest k v

/-- Key lookup in a configuration mapping. -/
def dictGet (d : ConfigDict) (k : String) : Option ConfigValue :=
  match d with
  | [] => none
  | (k', v') :: rest => if k' = k then some v' else dictGet rest k

/-- The keys of a configuration mapping, in insertion order. -/
def dictKeys (d : ConfigDict) : List String := d.map Prod.fst

/-- The notebook's `problem_data` as the HLLE call observes it: built from an
empty dict by setting `gamma` and then `gamma1`. -/
noncomputable def problem_data_hll : ConfigDict :=
  dictSet (dictSet [] "gamma" (.real gamma)) "gamma1" (.real (gamma - 1.0))

/-- The notebook's `problem_data` as the Roe call observes it: the single
in-place update `problem_data` receives before that call sets `efix`. -/
noncomputable def problem_data_roe : ConfigDict :=
  dictSet problem_data_hll "efix" (.bool false)

/-- A supersonic right-moving state used to exercise the `s_left ≥ 0` branch. -/
noncomputable def supersonicState : PrimitiveState := ⟨1, 5, 1 / 2⟩

/-- Left state of the counterexample to C2's literal round-trip identity,
also the left state of the transonic-rarefaction scenario. -/
noncomputable def cexLeft : PrimitiveState := ⟨1, 0, 1 / 2⟩

/-- Right state of the counterexample to C2's literal round-trip identity. -/
noncomputable def cexRight : PrimitiveState := ⟨1, 0, 49 / 2⟩

/-- Right state of the transonic-rarefaction scenario exercising the fix. -/
noncomputable def transRight : PrimitiveState := ⟨1, 2, 3⟩

lemma sqrt_val {x y : ℝ} (hy : 0 ≤ y) (h : y ^ 2 = x) : Real.sqrt x = y := by
  rw [← h, Real.sqrt_sq hy]

/-- The radicand of the Roe-averaged sound speed is positive on valid states:
it equals a `sqrt ρ`-weighted average of the one-sided `c²/(γ-1)` terms plus a
nonnegative velocity-spread term. -/
lemma roeRadicand_pos (wl wr : PrimitiveState) (γ : ℝ)
    (hρl : 0 < wl.rho) (hpl : 0 < wl.p) (hρr : 0 < wr.rho) (hpr : 0 < wr.p)
    (hγ : 1 < γ) :
    0 < (γ - 1) * (roeH wl wr γ - (roeU wl wr) ^ 2 / 2) := by
  have hA : 0 < Real.sqrt wl.rho := Real.sqrt_pos.mpr hρl
  have hB : 0 < Real.sqrt wr.rho := Real.sqrt_pos.mpr hρr
  have hγ0 : (0:ℝ) < γ := by linarith
  have hγ1 : γ - 1 ≠ 0 := by intro h; linarith [sub_eq_zero.mp h]
  have hAB : Real.sqrt wl.rho + Real.sqrt wr.rho ≠ 0 := by positivity
  have key : (γ - 1) * (roeH wl wr γ - (roeU wl wr) ^ 2 / 2) =
      ((Real.sqrt wl.rho * (γ * wl.p / wl.rho) +
          Real.sqrt wr.rho * (γ * wr.p / wr.rho)) *
            (Real.sqrt wl.rho + Real.sqrt wr.rho) +
        (γ - 1) * Real.sqrt wl.rho * Real.sqrt wr.rho * (wl.u - wr.u) ^ 2 / 2) /
          (Real.sqrt wl.rho + Real.sqrt wr.rho) ^ 2 := by
    simp only [roeH, roeU, enthalpy, prim2con]
    field_simp
    ring
  rw [key]
  apply div_pos
  · have h1 : 0 < (Real.sqrt wl.rho * (γ * wl.p / wl.rho) +
        Real.sqrt wr.rho * (γ * wr.p / wr.rho)) *
          (Real.sqrt wl.rho + Real.sqrt wr.rho) := by positivity
    have h2 : 0 ≤ (γ - 1) * Real.sqrt wl.rho * Real.sqrt wr.rho *
        (wl.u - wr.u) ^ 2 / 2 := by
      have hg : 0 ≤ γ - 1 := by linarith
      positivity
    linarith
  · positivity

lemma roeC_pos (wl wr : PrimitiveState) (γ : ℝ)
    (hρl : 0 < wl.rho) (hpl : 0 < wl.p) (hρr : 0 < wr.rho) (hpr : 0 < wr.p)
    (hγ : 1 < γ) : 0 < roeC wl wr γ := by
  rw [roeC]
  exact Real.sqrt_pos.mpr (roeRadicand_pos wl wr γ hρl hpl hρr hpr hγ)

lemma sLeft_lt_sRight (wl wr : PrimitiveState) (γ : ℝ)
    (hρl : 0 < wl.rho) (hpl : 0 < wl.p) (hρr : 0 < wr.rho) (hpr : 0 < wr.p)
    (hγ : 1 < γ) : sLeft wl wr γ < sRight wl wr γ := by
  have hc := roeC_pos wl wr γ hρl hpl hρr hpr hγ
  have h1 : sLeft wl wr γ ≤ roeU wl wr - roeC wl wr γ := min_le_left _ _
  have h2 : roeU wl wr + roeC wl wr γ ≤ sRight wl wr γ := le_max_left _ _
  linarith

/-- C1: the HLLE solver takes `s_left = min (û - ĉ) (u_l - c_l)` and
`s_right = max (û + ĉ) (u_r + c_r)`, and on valid states with `γ > 1` the two
speeds satisfy `s_left ≤ s_right`. -/
theorem hll_speed_choice (wl wr : PrimitiveState) (γ : ℝ)
    (hρl : 0 < wl.rho) (hpl : 0 < wl.p) (hρr : 0 < wr.rho) (hpr : 0 < wr.p)
    (hγ : 1 < γ) :
    sLeft wl wr γ = min (roeU wl wr - roeC wl wr γ) (wl.u - soundSpeed wl γ) ∧
    sRight wl wr γ = max (roeU wl wr + roeC wl wr γ) (wr.u + soundSpeed wr γ) ∧
    sLeft wl wr γ ≤ sRight wl wr γ :=
  ⟨rfl, rfl, (sLeft_lt_sRight wl wr γ hρl hpl hρr hpr hγ).le⟩

/-- Witness for C1 at the notebook's Sod-like input. -/
theorem hll_speed_choice_witness :
    sLeft left_state right_state gamma =
      min (roeU left_state right_state - roeC left_state right_state gamma)
        (left_state.u - soundSpeed left_state gamma) ∧
    sRight left_state right_state gamma =
      max (roeU left_state right_state + roeC left_state right_state gamma)
        (right_state.u + soundSpeed right_state gamma) ∧
    sLeft left_state right_state gamma ≤ sRight left_state right_state gamma :=
  hll_speed_choice left_state right_state gamma
    (by norm_num [left_state]) (by norm_num [left_state])
    (by norm_num [right_state]) (by norm_num [right_state]) (by norm_num [gamma])

/-- C5: whenever the two HLLE bounding speeds coincide on states that pass
validation, the solver returns the `DegenerateWaveSpeedError` and no solution. -/
theorem hll_degenerate_error (wl wr : PrimitiveState) (γ : ℝ)
    (hl : ¬(wl.rho ≤ 0 ∨ wl.p ≤ 0)) (hr : ¬(wr.rho ≤ 0 ∨ wr.p ≤ 0))
    (h : sLeft wl wr γ = sRight wl wr γ) :
    euler_hll_1D wl wr γ = .error .degenerateWaveSpeed := by
  rw [euler_hll_1D, if_neg hl, if_neg hr, if_pos h]

/-- Witness for C5: with `γ = 1` the Roe-averaged fan collapses, both bounding
speeds equal `1`, and the solver reports the degenerate-speed error. -/
theorem hll_degenerate_error_witness :
    euler_hll_1D ⟨1, 2, 1⟩ ⟨1, 0, 1⟩ 1 = .error .degenerateWaveSpeed := by
  apply hll_degenerate_error ⟨1, 2, 1⟩ ⟨1, 0, 1⟩ 1 (by norm_num) (by norm_num)
  have h1 : soundSpeed ⟨1, 2, 1⟩ 1 = 1 := by
    rw [soundSpeed, show (1:ℝ) * PrimitiveState.p ⟨1, 2, 1⟩ /
      PrimitiveState.rho ⟨1, 2, 1⟩ = 1 by norm_num, Real.sqrt_one]
  have h2 : soundSpeed ⟨1, 0, 1⟩ 1 = 1 := by
    rw [soundSpeed, show (1:ℝ) * PrimitiveState.p ⟨1, 0, 1⟩ /
      PrimitiveState.rho ⟨1, 0, 1⟩ = 1 by norm_num, Real.sqrt_one]
  have hu : roeU ⟨1, 2, 1⟩ ⟨1, 0, 1⟩ = 1 := by
    rw [roeU]
    norm_num [Real.sqrt_one]
  have hc : roeC ⟨1, 2, 1⟩ ⟨1, 0, 1⟩ 1 = 0 := by
    rw [roeC, show ((1:ℝ) - 1) * (roeH ⟨1, 2, 1⟩ ⟨1, 0, 1⟩ 1 -
      (roeU ⟨1, 2, 1⟩ ⟨1, 0, 1⟩) ^ 2 / 2) = 0 by ring, Real.sqrt_zero]
  rw [sLeft, sRight, hu, hc, h1, h2]
  norm_num

/-- C6: a state with `ρ ≤ 0` or `p ≤ 0` makes the conversion to conserved
variables fail with `InvalidStateError`, and both solvers fail the same way
with no partial result, before any wave computation. -/
theorem invalid_state_rejected (w : PrimitiveState) (γ : ℝ)
    (h : w.rho ≤ 0 ∨ w.p ≤ 0) :
    toConserved w γ = .error .invalidState ∧
    ∀ (wr : PrimitiveState) (efix : Bool),
      euler_hll_1D w wr γ = .error .invalidState ∧
      euler_roe_1D w wr γ efix = .error .invalidState := by
  refine ⟨?_, fun wr efix => ⟨?_, ?_⟩⟩
  · rw [toConserved, if_pos h]
  · rw [euler_hll_1D, if_pos h]
  · rw [euler_roe_1D, if_pos h]

/-- Witness for C6 at the spec's error scenario `{ρ = -1, u = 0, p = 1}`. -/
theorem invalid_state_rejected_witness :
    toConserved ⟨-1, 0, 1⟩ gamma = .error .invalidState ∧
    ∀ (wr : PrimitiveState) (efix : Bool),
      euler_hll_1D ⟨-1, 0, 1⟩ wr gamma = .error .invalidState ∧
      euler_roe_1D ⟨-1, 0, 1⟩ wr gamma efix = .error .invalidState :=
  invalid_state_rejected ⟨-1, 0, 1⟩ gamma (Or.inl (by norm_num))

/-- C3: when `s_left ≥ 0` the HLLE output is entirely the left conserved
state; when `s_right ≤ 0` it is entirely the right conserved state. -/
theorem hll_one_sided (wl wr : PrimitiveState) (γ : ℝ)
    (hρl : 0 < wl.rho) (hpl : 0 < wl.p) (hρr : 0 < wr.rho) (hpr : 0 < wr.p)
    (hγ : 1 < γ) (h : 0 ≤ sLeft wl wr γ ∨ sRight wl wr γ ≤ 0) :
    ∃ sol, euler_hll_1D wl wr γ = .ok sol ∧
      ∀ x t : ℝ, 0 < t → sol.evaluate x t =
        (if 0 ≤ sLeft wl wr γ then prim2con wl γ else prim2con wr γ) := by
  have hlt := sLeft_lt_sRight wl wr γ hρl hpl hρr hpr hγ
  have hv1 : ¬(wl.rho ≤ 0 ∨ wl.p ≤ 0) := by
    rw [not_or, not_le, not_le]; exact ⟨hρl, hpl⟩
  have hv2 : ¬(wr.rho ≤ 0 ∨ wr.p ≤ 0) := by
    rw [not_or, not_le, not_le]; exact ⟨hρr, hpr⟩
  rcases h with h | h
  · refine ⟨constSolution (prim2con wl γ) wl wr γ, ?_, ?_⟩
    · rw [euler_hll_1D, if_neg hv1, if_neg hv2, if_neg hlt.ne, if_pos h]
    · intro x t _
      rw [if_pos h]
      rfl
  · have hsl : sLeft wl wr γ < 0 := lt_of_lt_of_le hlt h
    have hns : ¬ 0 ≤ sLeft wl wr γ := not_le.mpr hsl
    refine ⟨constSolution (prim2con wr γ) wl wr γ, ?_, ?_⟩
    · rw [euler_hll_1D, if_neg hv1, if_neg hv2, if_neg hlt.ne, if_neg hns,
        if_pos h]
    · intro x t _
      rw [if_neg hns]
      rfl

lemma supersonic_sLeft : sLeft supersonicState supersonicState 2 = 4 := by
  have hc : soundSpeed supersonicState 2 = 1 := by
    rw [soundSpeed, show (2:ℝ) * supersonicState.p / supersonicState.rho = 1 by
      norm_num [supersonicState], Real.sqrt_one]
  have hu : roeU supersonicState supersonicState = 5 := by
    rw [roeU]
    norm_num [supersonicState, Real.sqrt_one]
  have hH : roeH supersonicState supersonicState 2 = 27 / 2 := by
    rw [roeH, enthalpy, prim2con]
    norm_num [supersonicState, Real.sqrt_one]
  have hrc : roeC supersonicState supersonicState 2 = 1 := by
    rw [roeC, hH, hu, show ((2:ℝ) - 1) * (27 / 2 - 5 ^ 2 / 2) = 1 by norm_num,
      Real.sqrt_one]
  rw [sLeft, hu, hrc, hc]
  norm_num [supersonicState]

/-- Witness for C3: a supersonic right-moving flow with `s_left = 4 ≥ 0`
yields a solution that is the left state everywhere. -/
theorem hll_one_sided_witness :
    ∃ sol, euler_hll_1D supersonicState supersonicState 2 = .ok sol ∧
      ∀ x t : ℝ, 0 < t → sol.evaluate x t =
        (if 0 ≤ sLeft supersonicState supersonicState 2 then
          prim2con supersonicState 2 else prim2con supersonicState 2) :=
  hll_one_sided supersonicState supersonicState 2
    (by norm_num [supersonicState]) (by norm_num [supersonicState])
    (by norm_num [supersonicState]) (by norm_num [supersonicState])
    (by norm_num) (Or.inl (by rw [supersonic_sLeft]; norm_num))

lemma roeU_self (w : PrimitiveState) (hρ : 0 < w.rho) : roeU w w = w.u := by
  have hA : 0 < Real.sqrt w.rho := Real.sqrt_pos.mpr hρ
  have h2 : Real.sqrt w.rho + Real.sqrt w.rho ≠ 0 := by positivity
  rw [roeU]
  field_simp
  ring

lemma roeH_self (w : PrimitiveState) (γ : ℝ) (hρ : 0 < w.rho) :
    roeH w w γ = enthalpy w γ := by
  have hA : 0 < Real.sqrt w.rho := Real.sqrt_pos.mpr hρ
  have h2 : Real.sqrt w.rho + Real.sqrt w.rho ≠ 0 := by positivity
  rw [roeH]
  field_simp
  ring

lemma roeC_self (w : PrimitiveState) (γ : ℝ) (hρ : 0 < w.rho) (hγ : 1 < γ) :
    roeC w w γ = soundSpeed w γ := by
  have hγ1 : γ - 1 ≠ 0 := by intro h; linarith [sub_eq_zero.mp h]
  rw [roeC, soundSpeed, roeH_self w γ hρ, roeU_self w hρ]
  congr 1
  rw [enthalpy, prim2con]
  field_simp
  ring

lemma uOf_prim2con (w : PrimitiveState) (γ : ℝ) (hρ : w.rho ≠ 0) :
    uOf (prim2con w γ) = w.u := by
  rw [uOf, prim2con]
  field_simp

lemma pOf_prim2con (w : PrimitiveState) (γ : ℝ) (hρ : w.rho ≠ 0)
    (hγ : γ - 1 ≠ 0) : pOf (prim2con w γ) γ = w.p := by
  rw [pOf, prim2con]
  field_simp
  ring

lemma cOf_prim2con (w : PrimitiveState) (γ : ℝ) (hρ : w.rho ≠ 0)
    (hγ : γ - 1 ≠ 0) : cOf (prim2con w γ) γ = soundSpeed w γ := by
  rw [cOf, soundSpeed, pOf_prim2con w γ hρ hγ, prim2con]

/-- C9: with identical left and right states both solvers return a zero-width
wave structure: every intermediate state is that state and the evaluator is
constant for `t > 0`. -/
theorem equal_states_trivial (w : PrimitiveState) (γ : ℝ) (efix : Bool)
    (hρ : 0 < w.rho) (hp : 0 < w.p) (hγ : 1 < γ) :
    (∃ sol, euler_hll_1D w w γ = .ok sol ∧
      (∀ q ∈ sol.states, q = prim2con w γ) ∧
      ∀ x t : ℝ, 0 < t → sol.evaluate x t = prim2con w γ) ∧
    (∃ sol, euler_roe_1D w w γ efix = .ok sol ∧
      (∀ q ∈ sol.states, q = prim2con w γ) ∧
      ∀ x t : ℝ, 0 < t → sol.evaluate x t = prim2con w γ) := by
  have hρ' : w.rho ≠ 0 := hρ.ne'
  have hγ1 : γ - 1 ≠ 0 := by intro h; linarith [sub_eq_zero.mp h]
  have hv : ¬(w.rho ≤ 0 ∨ w.p ≤ 0) := by
    rw [not_or, not_le, not_le]; exact ⟨hρ, hp⟩
  have hlt := sLeft_lt_sRight w w γ hρ hp hρ hp hγ
  constructor
  · by_cases h0 : 0 ≤ sLeft w w γ
    · refine ⟨constSolution (prim2con w γ) w w γ, ?_, ?_, ?_⟩
      · rw [euler_hll_1D, if_neg hv, if_neg hv, if_neg hlt.ne, if_pos h0]
      · intro q hq
        simpa [constSolution] using hq
      · intro x t _
        rfl
    · by_cases h1 : sRight w w γ ≤ 0
      · refine ⟨constSolution (prim2con w γ) w w γ, ?_, ?_, ?_⟩
        · rw [euler_hll_1D, if_neg hv, if_neg hv, if_neg hlt.ne, if_neg h0,
            if_pos h1]
        · intro q hq
          simpa [constSolution] using hq
        · intro x t _
          rfl
      · have hd : sRight w w γ - sLeft w w γ ≠ 0 := sub_ne_zero.mpr hlt.ne'
        have hq : qStar w w γ = prim2con w γ := by
          ext <;> simp only [qStar, smul_rho, smul_mom, smul_ene, add_rho,
            add_mom, add_ene, sub_rho, sub_mom, sub_ene] <;> field_simp <;> ring
        refine ⟨hllMain w w γ, ?_, ?_, ?_⟩
        · rw [euler_hll_1D, if_neg hv, if_neg hv, if_neg hlt.ne, if_neg h0,
            if_neg h1]
        · intro q hmem
          have : q = qStar w w γ := by simpa [hllMain] using hmem
          rw [this, hq]
        · intro x t _
          show evalWaves (prim2con w γ)
            [(sLeft w w γ, qStar w w γ), (sRight w w γ, prim2con w γ)]
            (x / t) = prim2con w γ
          rw [hq]
          simp [evalWaves]
  · have hδ : roeDelta w w γ = ⟨0, 0, 0⟩ := by
      ext <;> simp [roeDelta]
    have hα2 : roeAlpha2 w w γ = 0 := by
      rw [roeAlpha2, hδ]
      simp
    have hα3 : roeAlpha3 w w γ = 0 := by
      rw [roeAlpha3, hδ, hα2]
      simp
    have hα1 : roeAlpha1 w w γ = 0 := by
      rw [roeAlpha1, hδ, hα2, hα3]
      simp
    have hm1 : roeM1 w w γ = prim2con w γ := by
      rw [roeM1, hα1]
      ext <;> simp
    have hm2 : roeM2 w w γ = prim2con w γ := by
      rw [roeM2, hm1, hα2]
      ext <;> simp
    have hLam1 : roeLam1R w w γ = roeLam1L w γ := by
      rw [roeLam1R, roeLam1L, hm1, uOf_prim2con w γ hρ', cOf_prim2con w γ hρ' hγ1]
    have hLam3 : roeLam3L w w γ = roeLam3R w γ := by
      rw [roeLam3L, roeLam3R, hm2, uOf_prim2con w γ hρ', cOf_prim2con w γ hρ' hγ1]
    have hfix1 : ¬(efix = true ∧ roeLam1L w γ < 0 ∧ 0 < roeLam1R w w γ) := by
      rintro ⟨-, hneg, hpos⟩
      rw [hLam1] at hpos
      linarith
    have hfix3 : ¬(efix = true ∧ roeLam3L w w γ < 0 ∧ 0 < roeLam3R w γ) := by
      rintro ⟨-, hneg, hpos⟩
      rw [hLam3] at hneg
      linarith
    have hw : roeWaves w w γ efix =
        [(roeU w w - roeC w w γ, prim2con w γ), (roeU w w, prim2con w γ),
         (roeU w w + roeC w w γ, prim2con w γ)] := by
      rw [roeWaves, roeWaves1, roeWaves3, if_neg hfix1, if_neg hfix3, hm1, hm2]
      rfl
    refine ⟨roeSol w w γ efix, ?_, ?_, ?_⟩
    · rw [euler_roe_1D, if_neg hv, if_neg hv]
    · intro q hmem
      have : q ∈ (((roeWaves w w γ efix).map Prod.snd).dropLast) := hmem
      rw [hw] at this
      simpa using this
    · intro x t _
      show evalWaves (prim2con w γ) (roeWaves w w γ efix) (x / t) = prim2con w γ
      rw [hw]
      simp [evalWaves]

/-- Witness for C9 at a concrete valid state with both entropy-fix settings
represented by `efix = true`. -/
theorem equal_states_trivial_witness :
    (∃ sol, euler_hll_1D ⟨1, 0, 1⟩ ⟨1, 0, 1⟩ gamma = .ok sol ∧
      (∀ q ∈ sol.states, q = prim2con ⟨1, 0, 1⟩ gamma) ∧
      ∀ x t : ℝ, 0 < t → sol.evaluate x t = prim2con ⟨1, 0, 1⟩ gamma) ∧
    (∃ sol, euler_roe_1D ⟨1, 0, 1⟩ ⟨1, 0, 1⟩ gamma true = .ok sol ∧
      (∀ q ∈ sol.states, q = prim2con ⟨1, 0, 1⟩ gamma) ∧
      ∀ x t : ℝ, 0 < t → sol.evaluate x t = prim2con ⟨1, 0, 1⟩ gamma) :=
  equal_states_trivial ⟨1, 0, 1⟩ gamma true (by norm_num) (by norm_num)
    (by norm_num [gamma])

/-- C7: on valid states with `γ > 1` the Roe wave strengths reconstruct the
jump exactly: `α₁ r₁ + α₂ r₂ + α₃ r₃ = q_r - q_l`. -/
theorem roe_reconstruction (wl wr : PrimitiveState) (γ : ℝ)
    (hρl : 0 < wl.rho) (hpl : 0 < wl.p) (hρr : 0 < wr.rho) (hpr : 0 < wr.p)
    (hγ : 1 < γ) :
    roeAlpha1 wl wr γ • roeR1 wl wr γ + roeAlpha2 wl wr γ • roeR2 wl wr γ +
      roeAlpha3 wl wr γ • roeR3 wl wr γ = prim2con wr γ - prim2con wl γ := by
  have hγ1 : γ - 1 ≠ 0 := by intro h; linarith [sub_eq_zero.mp h]
  have hrad := roeRadicand_pos wl wr γ hρl hpl hρr hpr hγ
  have hc : 0 < roeC wl wr γ := by
    rw [roeC]; exact Real.sqrt_pos.mpr hrad
  have hc2 : (roeC wl wr γ) ^ 2 =
      (γ - 1) * (roeH wl wr γ - (roeU wl wr) ^ 2 / 2) := by
    rw [roeC]; exact Real.sq_sqrt hrad.le
  have hH : roeH wl wr γ = (roeC wl wr γ) ^ 2 / (γ - 1) + (roeU wl wr) ^ 2 / 2 := by
    rw [hc2]
    field_simp
    ring
  ext <;>
    simp only [roeAlpha1, roeAlpha2, roeAlpha3, roeR1, roeR2, roeR3, roeDelta,
      add_rho, add_mom, add_ene, smul_rho, smul_mom, smul_ene,
      sub_rho, sub_mom, sub_ene] <;>
    rw [hH] <;>
    field_simp <;>
    ring

/-- Witness for C7 at the notebook's Sod-like input. -/
theorem roe_reconstruction_witness :
    roeAlpha1 left_state right_state gamma • roeR1 left_state right_state gamma +
      roeAlpha2 left_state right_state gamma • roeR2 left_state right_state gamma +
      roeAlpha3 left_state right_state gamma • roeR3 left_state right_state gamma =
      prim2con right_state gamma - prim2con left_state gamma :=
  roe_reconstruction left_state right_state gamma
    (by norm_num [left_state]) (by norm_num [left_state])
    (by norm_num [right_state]) (by norm_num [right_state]) (by norm_num [gamma])

/-- C4: at the notebook's input (`left = (3, -0.5, 2)`, `right = (1, 0, 1)`,
`γ = 1.4`) the HLLE solver returns one intermediate state and two speeds with
`s_left < 0 < s_right`, and the Roe solver returns three wave speeds in
non-decreasing order. -/
theorem sod_scenario :
    ∃ sol solR,
      euler_hll_1D left_state right_state gamma = .ok sol ∧
      sol.states.length = 1 ∧
      sol.speeds = [sLeft left_state right_state gamma,
        sRight left_state right_state gamma] ∧
      sLeft left_state right_state gamma < 0 ∧
      0 < sRight left_state right_state gamma ∧
      euler_roe_1D left_state right_state gamma false = .ok solR ∧
      solR.speeds = [roeU left_state right_state - roeC left_state right_state gamma,
        roeU left_state right_state,
        roeU left_state right_state + roeC left_state right_state gamma] ∧
      roeU left_state right_state - roeC left_state right_state gamma ≤
        roeU left_state right_state ∧
      roeU left_state right_state ≤
        roeU left_state right_state + roeC left_state right_state gamma := by
  have hul : left_state.u = -0.5 := rfl
  have hur : right_state.u = 0 := rfl
  have hcl : 0 ≤ soundSpeed left_state gamma := by
    rw [soundSpeed]; exact Real.sqrt_nonneg _
  have hcr : 0 < soundSpeed right_state gamma := by
    rw [soundSpeed]
    apply Real.sqrt_pos.mpr
    norm_num [right_state, gamma]
  have hslneg : sLeft left_state right_state gamma < 0 := by
    have h := min_le_right
      (roeU left_state right_state - roeC left_state right_state gamma)
      (left_state.u - soundSpeed left_state gamma)
    rw [← sLeft] at h
    rw [hul] at h
    norm_num at h ⊢
    linarith
  have hsrpos : 0 < sRight left_state right_state gamma := by
    have h := le_max_right
      (roeU left_state right_state + roeC left_state right_state gamma)
      (right_state.u + soundSpeed right_state gamma)
    rw [← sRight] at h
    rw [hur] at h
    linarith
  have hvl : ¬(left_state.rho ≤ 0 ∨ left_state.p ≤ 0) := by
    rw [not_or, not_le, not_le]
    constructor <;> norm_num [left_state]
  have hvr : ¬(right_state.rho ≤ 0 ∨ right_state.p ≤ 0) := by
    rw [not_or, not_le, not_le]
    constructor <;> norm_num [right_state]
  have hne : sLeft left_state right_state gamma ≠
      sRight left_state right_state gamma :=
    ne_of_lt (lt_trans hslneg hsrpos)
  have hcnn : 0 ≤ roeC left_state right_state gamma := by
    rw [roeC]; exact Real.sqrt_nonneg _
  have hw : roeWaves left_state right_state gamma false =
      [(roeU left_state right_state - roeC left_state right_state gamma,
        roeM1 left_state right_state gamma),
       (roeU left_state right_state, roeM2 left_state right_state gamma),
       (roeU left_state right_state + roeC left_state right_state gamma,
        prim2con right_state gamma)] := by
    rw [roeWaves, roeWaves1, roeWaves3, if_neg (by simp), if_neg (by simp)]
    rfl
  refine ⟨hllMain left_state right_state gamma,
    roeSol left_state right_state gamma false, ?_, rfl, rfl, hslneg, hsrpos,
    ?_, ?_, by linarith, by linarith⟩
  · rw [euler_hll_1D, if_neg hvl, if_neg hvr, if_neg hne,
      if_neg (not_le.mpr hslneg), if_neg (not_le.mpr hsrpos)]
  · rw [euler_roe_1D, if_neg hvl, if_neg hvr]
  · show (roeWaves left_state right_state gamma false).map Prod.fst = _
    rw [hw]
    rfl

/-- C2 (amended): when `s_left < 0 < s_right` the single HLLE intermediate
state is `q* = (s_r q_r - s_l q_l + f_l - f_r) / (s_r - s_l)`, and it
satisfies the HLL conservation identity
`f_l + s_l (q* - q_l) = f_r + s_r (q* - q_r)`. -/
theorem hll_intermediate_conservation (wl wr : PrimitiveState) (γ : ℝ)
    (hρl : 0 < wl.rho) (hpl : 0 < wl.p) (hρr : 0 < wr.rho) (hpr : 0 < wr.p)
    (hsl : sLeft wl wr γ < 0) (hsr : 0 < sRight wl wr γ) :
    ∃ sol, euler_hll_1D wl wr γ = .ok sol ∧
      sol.states = [qStar wl wr γ] ∧
      qStar wl wr γ = (1 / (sRight wl wr γ - sLeft wl wr γ)) •
        (sRight wl wr γ • prim2con wr γ - sLeft wl wr γ • prim2con wl γ +
          flux (prim2con wl γ) γ - flux (prim2con wr γ) γ) ∧
      flux (prim2con wl γ) γ + sLeft wl wr γ • (qStar wl wr γ - prim2con wl γ) =
        flux (prim2con wr γ) γ +
          sRight wl wr γ • (qStar wl wr γ - prim2con wr γ) := by
  have hvl : ¬(wl.rho ≤ 0 ∨ wl.p ≤ 0) := by
    rw [not_or, not_le, not_le]; exact ⟨hρl, hpl⟩
  have hvr : ¬(wr.rho ≤ 0 ∨ wr.p ≤ 0) := by
    rw [not_or, not_le, not_le]; exact ⟨hρr, hpr⟩
  have hne : sLeft wl wr γ ≠ sRight wl wr γ := ne_of_lt (lt_trans hsl hsr)
  have hd : sRight wl wr γ - sLeft wl wr γ ≠ 0 := sub_ne_zero.mpr (Ne.symm hne)
  refine ⟨hllMain wl wr γ, ?_, rfl, rfl, ?_⟩
  · rw [euler_hll_1D, if_neg hvl, if_neg hvr, if_neg hne,
      if_neg (not_le.mpr hsl), if_neg (not_le.mpr hsr)]
  · ext <;>
      simp only [qStar, smul_rho, smul_mom, smul_ene, add_rho, add_mom,
        add_ene, sub_rho, sub_mom, sub_ene] <;>
      field_simp <;>
      ring

/-- Witness for C2's amended statement at the notebook's Sod-like input. -/
theorem hll_intermediate_conservation_witness :
    ∃ sol, euler_hll_1D left_state right_state gamma = .ok sol ∧
      sol.states = [qStar left_state right_state gamma] ∧
      qStar left_state right_state gamma =
        (1 / (sRight left_state right_state gamma -
          sLeft left_state right_state gamma)) •
        (sRight left_state right_state gamma • prim2con right_state gamma -
          sLeft left_state right_state gamma • prim2con left_state gamma +
          flux (prim2con left_state gamma) gamma -
          flux (prim2con right_state gamma) gamma) ∧
      flux (prim2con left_state gamma) gamma +
        sLeft left_state right_state gamma •
          (qStar left_state right_state gamma - prim2con left_state gamma) =
      flux (prim2con right_state gamma) gamma +
        sRight left_state right_state gamma •
          (qStar left_state right_state gamma - prim2con right_state gamma) := by
  apply hll_intermediate_conservation left_state right_state gamma
    (by norm_num [left_state]) (by norm_num [left_state])
    (by norm_num [right_state]) (by norm_num [right_state])
  · have h := min_le_right
      (roeU left_state right_state - roeC left_state right_state gamma)
      (left_state.u - soundSpeed left_state gamma)
    rw [← sLeft, show left_state.u = -0.5 from rfl] at h
    have hcl : 0 ≤ soundSpeed left_state gamma := by
      rw [soundSpeed]; exact Real.sqrt_nonneg _
    norm_num at h ⊢
    linarith
  · have h := le_max_right
      (roeU left_state right_state + roeC left_state right_state gamma)
      (right_state.u + soundSpeed right_state gamma)
    rw [← sRight, show right_state.u = 0 from rfl] at h
    have hcr : 0 < soundSpeed right_state gamma := by
      rw [soundSpeed]
      apply Real.sqrt_pos.mpr
      norm_num [right_state, gamma]
    linarith

lemma cex_cl : soundSpeed cexLeft 2 = 1 := by
  rw [soundSpeed, show (2:ℝ) * cexLeft.p / cexLeft.rho = 1 by
    norm_num [cexLeft], Real.sqrt_one]

lemma cex_cr : soundSpeed cexRight 2 = 7 := by
  rw [soundSpeed, show (2:ℝ) * cexRight.p / cexRight.rho = 49 by
    norm_num [cexRight]]
  exact sqrt_val (by norm_num) (by norm_num)

lemma cex_u : roeU cexLeft cexRight = 0 := by
  rw [roeU]
  norm_num [cexLeft, cexRight, Real.sqrt_one]

lemma cex_H : roeH cexLeft cexRight 2 = 25 := by
  rw [roeH, enthalpy, enthalpy, prim2con, prim2con]
  norm_num [cexLeft, cexRight, Real.sqrt_one]

lemma cex_c : roeC cexLeft cexRight 2 = 5 := by
  rw [roeC, cex_H, cex_u, show ((2:ℝ) - 1) * (25 - 0 ^ 2 / 2) = 25 by norm_num]
  exact sqrt_val (by norm_num) (by norm_num)

lemma cex_sl : sLeft cexLeft cexRight 2 = -5 := by
  rw [sLeft, cex_u, cex_c, cex_cl, show cexLeft.u = 0 from rfl,
    show (0:ℝ) - 5 = -5 by norm_num, show (0:ℝ) - 1 = -1 by norm_num]
  exact min_eq_left (by norm_num)

lemma cex_sr : sRight cexLeft cexRight 2 = 7 := by
  rw [sRight, cex_u, cex_c, cex_cr, show cexRight.u = 0 from rfl,
    show (0:ℝ) + 5 = 5 by norm_num, show (0:ℝ) + 7 = 7 by norm_num]
  exact max_eq_right (by norm_num)

lemma cex_qstar : qStar cexLeft cexRight 2 = ⟨1, -2, 29 / 2⟩ := by
  rw [qStar, cex_sl, cex_sr]
  ext <;>
    simp only [smul_rho, smul_mom, smul_ene, add_rho, add_mom, add_ene,
      sub_rho, sub_mom, sub_ene, flux, prim2con] <;>
    norm_num [cexLeft, cexRight]

/-- Counterexample to C2 as stated: at `left = (1, 0, 1/2)`,
`right = (1, 0, 49/2)`, `γ = 2` the solver takes `s_left = -5 < 0 < 7 =
s_right` and produces `q* = (1, -2, 29/2)`, but the physical-flux round-trip
`f(q_l) - f(q*) = s_left (q_l - q*)` fails (momentum components `-16 ≠ -10`). -/
theorem hll_roundtrip_cex :
    ∃ sol, euler_hll_1D cexLeft cexRight 2 = .ok sol ∧
      sol.states = [qStar cexLeft cexRight 2] ∧
      sLeft cexLeft cexRight 2 < 0 ∧ 0 < sRight cexLeft cexRight 2 ∧
      ¬(flux (prim2con cexLeft 2) 2 - flux (qStar cexLeft cexRight 2) 2 =
          sLeft cexLeft cexRight 2 •
            (prim2con cexLeft 2 - qStar cexLeft cexRight 2)) := by
  have hsl : sLeft cexLeft cexRight 2 < 0 := by rw [cex_sl]; norm_num
  have hsr : 0 < sRight cexLeft cexRight 2 := by rw [cex_sr]; norm_num
  refine ⟨hllMain cexLeft cexRight 2, ?_, rfl, hsl, hsr, ?_⟩
  · rw [euler_hll_1D, if_neg (by norm_num [cexLeft]),
      if_neg (by norm_num [cexRight]), if_neg (ne_of_lt (lt_trans hsl hsr)),
      if_neg (not_le.mpr hsl), if_neg (not_le.mpr hsr)]
  · intro h
    have hρ := congrArg ConservedState.rho h
    rw [cex_qstar, cex_sl] at hρ
    simp only [sub_rho, smul_rho, flux, prim2con] at hρ
    norm_num [cexLeft] at hρ

/-- C8: on a family-1 transonic rarefaction (one-sided family-1 eigenvalues
straddling zero) the Roe solver with the entropy fix enabled emits two
sub-wave speeds for family 1, namely the two one-sided eigenvalues, which
straddle zero; with the fix disabled it emits the single linearized speed per
family. -/
theorem roe_entropy_fix_toggle (wl wr : PrimitiveState) (γ : ℝ)
    (hρl : 0 < wl.rho) (hpl : 0 < wl.p) (hρr : 0 < wr.rho) (hpr : 0 < wr.p)
    (h1 : roeLam1L wl γ < 0) (h2 : 0 < roeLam1R wl wr γ) :
    ∃ sol sol',
      euler_roe_1D wl wr γ true = .ok sol ∧
      euler_roe_1D wl wr γ false = .ok sol' ∧
      sol.speeds.take 2 = [roeLam1L wl γ, roeLam1R wl wr γ] ∧
      roeLam1L wl γ < 0 ∧ 0 < roeLam1R wl wr γ ∧
      sol'.speeds = [roeU wl wr - roeC wl wr γ, roeU wl wr,
        roeU wl wr + roeC wl wr γ] := by
  have hvl : ¬(wl.rho ≤ 0 ∨ wl.p ≤ 0) := by
    rw [not_or, not_le, not_le]; exact ⟨hρl, hpl⟩
  have hvr : ¬(wr.rho ≤ 0 ∨ wr.p ≤ 0) := by
    rw [not_or, not_le, not_le]; exact ⟨hρr, hpr⟩
  refine ⟨roeSol wl wr γ true, roeSol wl wr γ false, ?_, ?_, ?_, h1, h2, ?_⟩
  · rw [euler_roe_1D, if_neg hvl, if_neg hvr]
  · rw [euler_roe_1D, if_neg hvl, if_neg hvr]
  · show ((roeWaves wl wr γ true).map Prod.fst).take 2 = _
    rw [roeWaves, roeWaves1, if_pos ⟨rfl, h1, h2⟩]
    simp
  · show (roeWaves wl wr γ false).map Prod.fst = _
    rw [roeWaves, roeWaves1, roeWaves3, if_neg (by simp), if_neg (by simp)]
    rfl

lemma trans_lam1L : roeLam1L cexLeft 2 = -1 := by
  rw [roeLam1L, cex_cl, show cexLeft.u = 0 from rfl]
  norm_num

lemma trans_u : roeU cexLeft transRight = 1 := by
  rw [roeU]
  norm_num [cexLeft, transRight, Real.sqrt_one]

lemma trans_H : roeH cexLeft transRight 2 = 9 / 2 := by
  rw [roeH, enthalpy, enthalpy, prim2con, prim2con]
  norm_num [cexLeft, transRight, Real.sqrt_one]

lemma trans_c : roeC cexLeft transRight 2 = 2 := by
  rw [roeC, trans_H, trans_u,
    show ((2:ℝ) - 1) * (9 / 2 - 1 ^ 2 / 2) = 4 by norm_num]
  exact sqrt_val (by norm_num) (by norm_num)

lemma trans_delta : roeDelta cexLeft transRight 2 = ⟨0, 2, 9 / 2⟩ := by
  ext <;> simp [roeDelta, prim2con, cexLeft, transRight] <;> norm_num

lemma trans_alpha2 : roeAlpha2 cexLeft transRight 2 = -(5 / 8) := by
  rw [roeAlpha2, trans_delta, trans_c, trans_H, trans_u]
  norm_num

lemma trans_alpha3 : roeAlpha3 cexLeft transRight 2 = 13 / 16 := by
  rw [roeAlpha3, trans_delta, trans_c, trans_u, trans_alpha2]
  norm_num

lemma trans_alpha1 : roeAlpha1 cexLeft transRight 2 = -(3 / 16) := by
  rw [roeAlpha1, trans_delta, trans_alpha2, trans_alpha3]
  norm_num

lemma trans_r1 : roeR1 cexLeft transRight 2 = ⟨1, -1, 5 / 2⟩ := by
  rw [roeR1, trans_u, trans_c, trans_H]
  ext <;> norm_num

lemma trans_m1 : roeM1 cexLeft transRight 2 = ⟨13 / 16, 3 / 16, 1 / 32⟩ := by
  rw [roeM1, trans_alpha1, trans_r1]
  ext <;> simp [prim2con, cexLeft] <;> norm_num

lemma trans_lam1R : roeLam1R cexLeft transRight 2 = 1 / 13 := by
  rw [roeLam1R, trans_m1]
  have hc : cOf (⟨13 / 16, 3 / 16, 1 / 32⟩ : ConservedState) 2 = 2 / 13 := by
    rw [cOf, show (2:ℝ) * pOf ⟨13 / 16, 3 / 16, 1 / 32⟩ 2 /
      ConservedState.rho ⟨13 / 16, 3 / 16, 1 / 32⟩ = (2 / 13) ^ 2 by
        rw [pOf]; norm_num]
    exact Real.sqrt_sq (by norm_num)
  rw [hc, uOf]
  norm_num

/-- Witness for C8: `left = (1, 0, 1/2)`, `right = (1, 2, 3)`, `γ = 2` gives a
family-1 transonic rarefaction with `λ¹(q_l) = -1 < 0 < 1/13 = λ¹(q*₁)`. -/
theorem roe_entropy_fix_toggle_witness :
    ∃ sol sol',
      euler_roe_1D cexLeft transRight 2 true = .ok sol ∧
      euler_roe_1D cexLeft transRight 2 false = .ok sol' ∧
      sol.speeds.take 2 = [roeLam1L cexLeft 2, roeLam1R cexLeft transRight 2] ∧
      roeLam1L cexLeft 2 < 0 ∧ 0 < roeLam1R cexLeft transRight 2 ∧
      sol'.speeds = [roeU cexLeft transRight - roeC cexLeft transRight 2,
        roeU cexLeft transRight,
        roeU cexLeft transRight + roeC cexLeft transRight 2] :=
  roe_entropy_fix_toggle cexLeft transRight 2
    (by norm_num [cexLeft]) (by norm_num [cexLeft])
    (by norm_num [transRight]) (by norm_num [transRight])
    (by rw [trans_lam1L]; norm_num) (by rw [trans_lam1R]; norm_num)

/-- C10: the HLLE call sees `problem_data` with exactly the keys `gamma` and
`gamma1` (no entropy-fix key); the one in-place update before the Roe call
appends only `efix`, leaving `gamma` and `gamma1` unchanged, so both calls
observe `gamma = 1.4` and `gamma1 = gamma - 1`. -/
theorem problem_data_config :
    dictKeys problem_data_hll = ["gamma", "gamma1"] ∧
    dictGet problem_data_hll "efix" = none ∧
    dictKeys problem_data_roe = ["gamma", "gamma1", "efix"] ∧
    dictGet problem_data_hll "gamma" = some (.real gamma) ∧
    dictGet problem_data_hll "gamma1" = some (.real (gamma - 1)) ∧
    dictGet problem_data_roe "gamma" = some (.real gamma) ∧
    dictGet problem_data_roe "gamma1" = some (.real (gamma - 1)) ∧
    dictGet problem_data_roe "efix" = some (.bool false) ∧
    gamma = 1.4 := by
  refine ⟨?_, ?_, ?_, ?_, ?_, ?_, ?_, ?_, rfl⟩ <;>
    simp [problem_data_hll, problem_data_roe, dictSet, dictGet, dictKeys,
      gamma] <;>
    norm_num

end EulerApprox
